import Mathlib

/-
Verification of the Finance Manager categorisation core (src/main.py).

The Python program keeps a rule store `st.session_state.categories`
(a dict mapping category name to a list of keyword strings), persisted
as JSON in `categories.json`, and categorises transactions loaded from
a CSV file by exact (case/whitespace-insensitive) match of the `Details`
column against the keyword lists.

This file shallowly embeds the relevant functions:
  * `categorize` embeds `categorize_transactions` (main.py:27-41),
  * `add_keyword_to_category` embeds the function of the same name
    (main.py:57-64); a `KeyError` raised by the unguarded dict index is
    modelled as `none`,
  * `remove_keyword_from_category` embeds main.py:67-75,
  * `loadCategories` embeds the module-level load (main.py:12-19),
  * `load_transactions` embeds main.py:44-54, with pandas column
    conversions modelled column-wise.

A Python dict is embedded as an association list in insertion order
(Python dicts preserve insertion order and have unique keys); string
operations `.strip()` / `.lower()` are embedded over `List Char`
(ASCII case mapping, the common case of Python's Unicode lowering).
-/

namespace FinanceManager

/-- Characters removed by Python's `str.strip()` with no argument
(ASCII whitespace). -/
def isPySpace (c : Char) : Bool :=
  c = ' ' || c = '\t' || c = '\n' || c = '\r' || c = '\x0b' || c = '\x0c'

/-- Remove leading and trailing whitespace from a character list. -/
def stripChars (l : List Char) : List Char :=
  ((l.dropWhile isPySpace).reverse.dropWhile isPySpace).reverse

/-- Python `str.strip()`. -/
def pyStrip (s : String) : String :=
  ⟨stripChars s.data⟩

/-- Python `str.lower()` (ASCII case mapping). -/
def pyLower (s : String) : String :=
  ⟨s.data.map Char.toLower⟩

/-- `s.lower().strip()` — the normalisation used in `categorize_transactions`
(main.py:34,37). -/
def normLS (s : String) : String :=
  pyStrip (pyLower s)

/-- `s.strip().lower()` — the normalisation used in
`remove_keyword_from_category` (main.py:68,71). -/
def normSL (s : String) : String :=
  pyLower (pyStrip s)

/-- A parsed calendar date, the result of `pd.to_datetime(_, format="%d %b %Y")`. -/
structure PDate where
  day : Nat
  month : Nat
  year : Nat
deriving DecidableEq, Repr

/-- One row of the loaded dataframe: the typed fields after
`load_transactions` plus the mutable `Category` column. -/
structure Transaction where
  date : PDate
  details : String
  amount : Rat
  debitCredit : String
  status : String
  category : String
deriving DecidableEq, Repr

/-- The rule store `st.session_state.categories`: a Python dict
from category name to keyword list, in insertion order. -/
abbrev RuleStore := List (String × List String)

/-- `categorize_transactions` (main.py:27-41): reset every row's
`Category` to `"Uncategorised"`, then for each store entry other than
`"Uncategorised"` with a non-empty keyword list, set the `Category` of
every row whose lowered, stripped `Details` occurs in the lowered,
stripped keyword list. Later entries overwrite earlier ones. -/
def categorize (txs : List Transaction) (store : RuleStore) : List Transaction :=
  store.foldl
    (fun acc e =>
      if e.1 = "Uncategorised" ∨ e.2 = [] then acc
      else acc.map (fun t =>
        if normLS t.details ∈ e.2.map normLS then { t with category := e.1 } else t))
    (txs.map (fun t => { t with category := "Uncategorised" }))

/-- The per-transaction effect of one store entry on the current
category assignment, mirroring the loop body of `categorize_transactions`. -/
def catStep (d : String) (acc : String) (e : String × List String) : String :=
  if e.1 = "Uncategorised" ∨ e.2 = [] then acc
  else if normLS d ∈ e.2.map normLS then e.1 else acc

/-- The category `categorize` assigns to a transaction with `Details` `d`. -/
def finalCat (d : String) (store : RuleStore) : String :=
  store.foldl (catStep d) "Uncategorised"

/-- A store entry that can capture a transaction with `Details` `d`:
it is not the reserved `"Uncategorised"` entry and one of its keywords
matches `d` after lowering and stripping. -/
def entryMatches (d : String) (e : String × List String) : Prop :=
  e.1 ≠ "Uncategorised" ∧ normLS d ∈ e.2.map normLS

instance (d : String) (e : String × List String) : Decidable (entryMatches d e) := by
  unfold entryMatches; infer_instance

/-- The program state the keyword operations act on: the in-memory dict
plus the persisted `categories.json` snapshot (`none` = no file). -/
structure AppState where
  categories : RuleStore
  persisted : Option RuleStore
deriving DecidableEq, Repr

/-- Python dict lookup `store[c]` / `store.get(c)`: the value of the
first (unique) entry with key `c`. -/
def lookupStore (store : RuleStore) (c : String) : Option (List String) :=
  (store.find? (fun e => e.1 == c)).map (·.2)

/-- Replace the value of every entry keyed `c` (a dict has exactly one). -/
def setEntries (store : RuleStore) (c : String) (v : List String) : RuleStore :=
  store.map (fun e => if e.1 = c then (c, v) else e)

/-- Python dict assignment `store[c] = v`: update in place if the key
exists, otherwise append the new binding. -/
def storeSet (store : RuleStore) (c : String) (v : List String) : RuleStore :=
  if store.any (fun e => e.1 == c) then setEntries store c v else store ++ [(c, v)]

/-- `add_keyword_to_category` (main.py:57-64). The keyword is stripped;
an empty keyword returns `False` before the dict is indexed (Python's
short-circuit `or`); indexing a missing category raises `KeyError`,
modelled as `none`; an exact duplicate returns `False`; otherwise the
stripped keyword is appended and the whole store persisted. -/
def add_keyword_to_category (s : AppState) (category keyword : String) :
    Option (AppState × Bool) :=
  let keyword := pyStrip keyword
  if keyword = "" then some (s, false)
  else
    match lookupStore s.categories category with
    | none => none
    | some kws =>
      if keyword ∈ kws then some (s, false)
      else
        let cats := storeSet s.categories category (kws ++ [keyword])
        some ({ categories := cats, persisted := some cats }, true)

/-- `remove_keyword_from_category` (main.py:67-75). The keyword is
stripped then lowered; every stored keyword whose stripped, lowered form
equals it is dropped; the store is written back and persisted only when
the list length changed. A missing category yields `[]` via `.get`. -/
def remove_keyword_from_category (s : AppState) (category keyword : String) : AppState :=
  let keyword := pyLower (pyStrip keyword)
  let keywords := (lookupStore s.categories category).getD []
  let updated := keywords.filter (fun kw => pyLower (pyStrip kw) != keyword)
  if updated.length ≠ keywords.length then
    let cats := storeSet s.categories category updated
    { categories := cats, persisted := some cats }
  else s

/-- The module-level category load (main.py:12-19). The argument models
the state of `categories.json`: `none` = file absent, `some none` =
file present but not valid JSON (in which case `json.load` raises and
the exception propagates — there is no `try`), `some (some r)` = file
present and parsing to `r`. The default dict is spelled
`"UNcategorized"` in the source (main.py:14). -/
def loadCategories (file : Option (Option RuleStore)) : Option RuleStore :=
  match file with
  | none => some [("UNcategorized", [])]
  | some none => none
  | some (some r) => some r

/-- The parsing error kinds of the spec's Ledger contract (§4.3/§7);
in the source every such failure is an exception caught at main.py:52. -/
inductive ParseError where
  | MissingColumn
  | AmountFormat
  | DateFormat
deriving DecidableEq, Repr

/-- One raw CSV row with the required columns, before type conversion. -/
structure RawRow where
  date : String
  details : String
  amount : String
  debitCredit : String
  status : String
deriving DecidableEq, Repr

/-- `.str.replace(",", "")` on the Amount column (main.py:48). -/
def stripCommas (s : String) : String :=
  ⟨s.data.filter (fun c => c != ',')⟩

/-- The numeric value of a digit list, most significant first. -/
def digitsVal (l : List Char) : Nat :=
  l.foldl (fun n c => n * 10 + (c.toNat - 48)) 0

/-- Parse a non-empty all-digit list. -/
def parseDigits (l : List Char) : Option Nat :=
  if l ≠ [] ∧ l.all Char.isDigit then some (digitsVal l) else none

/-- The unsigned part of Python `float(s)` for finite decimal notation:
`digits [. digits]` or `. digits`, with an optional `e`/`E` exponent.
(Special forms such as `inf`, `nan` and digit-group underscores are not
modelled; no claim depends on them.) -/
def pyFloatMag (l : List Char) : Option Rat :=
  let mant := l.takeWhile (fun c => c != 'e' && c != 'E')
  let rest := l.dropWhile (fun c => c != 'e' && c != 'E')
  let mantVal : Option Rat :=
    let ip := mant.takeWhile (fun c => c != '.')
    match mant.dropWhile (fun c => c != '.') with
    | [] => (parseDigits ip).map (fun n => (n : Rat))
    | _ :: fp =>
      if ip = [] ∧ fp = [] then none
      else if ip.all Char.isDigit ∧ fp.all Char.isDigit then
        some ((digitsVal ip : Rat) + (digitsVal fp : Rat) / (10 : Rat) ^ fp.length)
      else none
  let expVal : Option Int :=
    match rest with
    | [] => some 0
    | _ :: '+' :: ds => (parseDigits ds).map Int.ofNat
    | _ :: '-' :: ds => (parseDigits ds).map (fun n => -(n : Int))
    | _ :: ds => (parseDigits ds).map Int.ofNat
  match mantVal, expVal with
  | some m, some ex => some (m * (10 : Rat) ^ ex)
  | _, _ => none

/-- Python `float(s)` as used by `.astype(float)` on a comma-stripped
amount string: surrounding whitespace is ignored, then an optional sign
and a finite decimal magnitude. -/
def pyFloat (s : String) : Option Rat :=
  match stripChars s.data with
  | '+' :: rest => pyFloatMag rest
  | '-' :: rest => (pyFloatMag rest).map (fun x => -x)
  | l => pyFloatMag l

/-- Abbreviated month names accepted by `%b` (case-insensitive, as in
`strptime`). -/
def monthNum (m : String) : Option Nat :=
  if pyLower m = "jan" then some 1
  else if pyLower m = "feb" then some 2
  else if pyLower m = "mar" then some 3
  else if pyLower m = "apr" then some 4
  else if pyLower m = "may" then some 5
  else if pyLower m = "jun" then some 6
  else if pyLower m = "jul" then some 7
  else if pyLower m = "aug" then some 8
  else if pyLower m = "sep" then some 9
  else if pyLower m = "oct" then some 10
  else if pyLower m = "nov" then some 11
  else if pyLower m = "dec" then some 12
  else none

/-- Gregorian leap-year test. -/
def isLeap (y : Nat) : Bool :=
  (y % 4 = 0 && y % 100 ≠ 0) || y % 400 = 0

/-- Number of days of a month, used by the date validity check
`to_datetime` performs when building the datetime. -/
def daysInMonth (m y : Nat) : Nat :=
  if m = 2 then (if isLeap y then 29 else 28)
  else if m = 4 ∨ m = 6 ∨ m = 9 ∨ m = 11 then 30 else 31

/-- `pd.to_datetime(s, format="%d %b %Y")` (main.py:49): a 1-2 digit
day, an abbreviated month name and a 4-digit year separated by single
spaces, validated as a calendar date. -/
def parseDate (s : String) : Option PDate :=
  match s.data.splitOn ' ' with
  | [d, m, y] =>
    match parseDigits d, monthNum ⟨m⟩, parseDigits y with
    | some dv, some mv, some yv =>
      if d.length ≤ 2 ∧ y.length = 4 ∧ 1 ≤ dv ∧ dv ≤ daysInMonth mv yv
      then some ⟨dv, mv, yv⟩ else none
    | _, _, _ => none
  | _ => none

/-- Column-wise conversion: pandas `astype` / `to_datetime` convert the
whole column and raise on the first bad entry, so the column conversion
succeeds only if every entry converts. -/
def mapOpt (f : α → Option β) : List α → Option (List β)
  | [] => some []
  | a :: l =>
    match f a, mapOpt f l with
    | some b, some bs => some (b :: bs)
    | _, _ => none

/-- Assemble typed rows from the raw rows and the converted columns.
The `Category` column does not exist yet; `categorize` creates it. -/
def buildTransactions : List RawRow → List Rat → List PDate → List Transaction
  | r :: rs, a :: as, d :: ds =>
    { date := d, details := r.details, amount := a, debitCredit := r.debitCredit,
      status := r.status, category := "" } :: buildTransactions rs as ds
  | _, _, _ => []

/-- `load_transactions` (main.py:44-54): convert the Amount column
(strip commas, parse as float), then the Date column, then categorise.
Any conversion failure raises inside the `try` and the function returns
`None` — no partial ledger; the exception raised first (Amount before
Date, per line order) determines the error kind. -/
def load_transactions (rows : List RawRow) (store : RuleStore) :
    Except ParseError (List Transaction) :=
  match mapOpt (fun r => pyFloat (stripCommas r.amount)) rows with
  | none => .error .AmountFormat
  | some amounts =>
    match mapOpt (fun r => parseDate r.date) rows with
    | none => .error .DateFormat
    | some dates => .ok (categorize (buildTransactions rows amounts dates) store)

/-- The keyword well-formedness that `add_keyword_to_category` actually
maintains: every stored keyword is stripped (but not case-folded), and
keywords are unique as exact strings within their category. -/
def wellFormedKeywords (store : RuleStore) : Prop :=
  ∀ e ∈ store, (∀ kw ∈ e.2, pyStrip kw = kw) ∧ e.2.Nodup

instance (store : RuleStore) : Decidable (wellFormedKeywords store) := by
  unfold wellFormedKeywords; infer_instance

/-- A sample transaction whose `Details` is `"foo"`. -/
def txFoo : Transaction :=
  { date := ⟨5, 3, 2024⟩, details := "foo", amount := 10, debitCredit := "Debit",
    status := "ok", category := "x" }

/-- A store holding the keyword `"foo"` under the reserved
`"Uncategorised"` name. Such a store is reachable: the edit loop
(main.py:122-134) calls `add_keyword_to_category` with whatever category
the user selects, including `"Uncategorised"`. -/
def storeUncatFoo : RuleStore := [("Uncategorised", ["foo"])]

/-- A store where two categories hold the same keyword (the transiently
inconsistent situation of §4.2). -/
def storeAB : RuleStore := [("A", ["foo"]), ("B", ["foo"]), ("Uncategorised", [])]

/-- A state whose store has `"k"` under `"C1"` only; `"C2"` absent. -/
def stateC1k : AppState := { categories := [("C1", ["k"])], persisted := none }

/-- A state whose store has `"k"` under `"C1"` and an empty `"C2"`. -/
def stateC1kC2 : AppState :=
  { categories := [("C1", ["k"]), ("C2", []), ("Uncategorised", [])], persisted := none }

/-- A one-category state with keyword list `["a"]`. -/
def stateCa : AppState := { categories := [("C", ["a"])], persisted := none }

/-- A one-category state with an empty keyword list. -/
def stateCempty : AppState := { categories := [("C", [])], persisted := none }

/-- A state with a mixed-case, padded keyword, for the removal checks. -/
def stateKb : AppState := { categories := [("C", ["K ", "b"])], persisted := none }

/-- A raw CSV row whose Amount is non-numeric. -/
def rowBadAmount : RawRow :=
  { date := "12 Jan 2023", details := "Shop", amount := "abc",
    debitCredit := "Debit", status := "ok" }

/-- The head of a `dropWhile` never satisfies the dropped predicate. -/
theorem head_dropWhile_isPySpace (l : List Char) :
    ∀ a ∈ (l.dropWhile isPySpace).head?, isPySpace a = false := by
  induction l with
  | nil => simp
  | cons a l ih =>
    by_cases h : isPySpace a
    · simpa [List.dropWhile_cons, h] using ih
    · simp [List.dropWhile_cons, h]

/-- A list whose head is not whitespace is unchanged by `dropWhile`. -/
theorem dropWhile_eq_self_of_head (l : List Char)
    (h : ∀ a ∈ l.head?, isPySpace a = false) : l.dropWhile isPySpace = l := by
  cases l with
  | nil => rfl
  | cons a l => simp [List.dropWhile_cons, h a (by simp)]

/-- A stripped list has no leading whitespace. -/
theorem head_stripChars (l : List Char) :
    ∀ a ∈ (stripChars l).head?, isPySpace a = false := by
  intro a ha
  unfold stripChars at ha
  have hsplit :
      ((l.dropWhile isPySpace).reverse.dropWhile isPySpace).reverse ++
        ((l.dropWhile isPySpace).reverse.takeWhile isPySpace).reverse
        = l.dropWhile isPySpace := by
    rw [← List.reverse_append, List.takeWhile_append_dropWhile, List.reverse_reverse]
  cases hr : ((l.dropWhile isPySpace).reverse.dropWhile isPySpace).reverse with
  | nil => rw [hr] at ha; simp at ha
  | cons b tl =>
    rw [hr] at ha hsplit
    simp only [List.head?_cons, Option.mem_def, Option.some.injEq] at ha
    refine head_dropWhile_isPySpace l a ?_
    rw [← hsplit]
    simp [ha]

/-- A stripped list has no trailing whitespace. -/
theorem head_reverse_stripChars (l : List Char) :
    ∀ a ∈ (stripChars l).reverse.head?, isPySpace a = false := by
  intro a ha
  unfold stripChars at ha
  rw [List.reverse_reverse] at ha
  exact head_dropWhile_isPySpace _ a ha

/-- Stripping is idempotent. -/
theorem stripChars_idem (l : List Char) : stripChars (stripChars l) = stripChars l := by
  show ((((stripChars l).dropWhile isPySpace).reverse.dropWhile isPySpace)).reverse
      = stripChars l
  rw [dropWhile_eq_self_of_head _ (head_stripChars l),
    dropWhile_eq_self_of_head _ (head_reverse_stripChars l), List.reverse_reverse]

/-- `pyStrip` is idempotent, as Python's `str.strip` is. -/
theorem pyStrip_idem (s : String) : pyStrip (pyStrip s) = pyStrip s := by
  show (⟨stripChars (stripChars s.data)⟩ : String) = ⟨stripChars s.data⟩
  rw [stripChars_idem]

/-- Stripping an already stripped keyword does not change its normal form. -/
theorem normSL_pyStrip (s : String) : normSL (pyStrip s) = normSL s := by
  unfold normSL
  rw [pyStrip_idem]

/-- A failing entry makes the whole column conversion fail. -/
theorem mapOpt_eq_none_of_mem {f : α → Option β} {l : List α}
    (h : ∃ a ∈ l, f a = none) : mapOpt f l = none := by
  induction l with
  | nil => simp at h
  | cons a l ih =>
    rcases h with ⟨b, hb, hfb⟩
    rcases List.mem_cons.1 hb with rfl | hbl
    · simp [mapOpt, hfb]
    · rw [mapOpt, ih ⟨b, hbl, hfb⟩]
      cases f a <;> rfl

/-- A length-preserving `filter` keeps every element. -/
theorem filter_eq_self_of_length {p : α → Bool} {l : List α}
    (h : (l.filter p).length = l.length) : l.filter p = l :=
  (List.filter_sublist l).eq_of_length h

/-- A successful lookup means the key occurs in the store. -/
theorem any_of_lookup {store : RuleStore} {c : String} {w : List String}
    (h : lookupStore store c = some w) : store.any (fun e => e.1 == c) = true := by
  rcases Option.map_eq_some'.1 h with ⟨f, hf, _⟩
  exact List.any_eq_true.2 ⟨f, List.mem_of_find?_eq_some hf, by
    have := List.find?_some hf
    simpa using this⟩

/-- A successful lookup returns the value of an actual store entry. -/
theorem mem_of_lookup {store : RuleStore} {c : String} {w : List String}
    (h : lookupStore store c = some w) : (c, w) ∈ store := by
  rcases Option.map_eq_some'.1 h with ⟨f, hf, hw⟩
  have hmem := List.mem_of_find?_eq_some hf
  have hpred := List.find?_some hf
  simp only [beq_iff_eq] at hpred
  have : f = (c, w) := by
    cases f
    simp only at hpred hw
    simp [hpred, hw]
  rwa [this] at hmem

/-- Lookup after `setEntries` at the written key. -/
theorem lookup_setEntries_self {store : RuleStore} {c : String} (v : List String)
    {w : List String} (h : lookupStore store c = some w) :
    lookupStore (setEntries store c v) c = some v := by
  induction store with
  | nil => simp [lookupStore] at h
  | cons e st ih =>
    by_cases he : e.1 = c
    · simp [lookupStore, setEntries, List.find?_cons, he]
    · have h' : lookupStore st c = some w := by
        simpa [lookupStore, List.find?_cons, he] using h
      simpa [lookupStore, setEntries, List.find?_cons, he] using ih h'

/-- Lookup after `storeSet` at the written key (key present beforehand). -/
theorem lookup_storeSet_self {store : RuleStore} {c : String} (v : List String)
    {w : List String} (h : lookupStore store c = some w) :
    lookupStore (storeSet store c v) c = some v := by
  rw [storeSet, if_pos (any_of_lookup h)]
  exact lookup_setEntries_self v h

/-- `setEntries` does not touch entries under other keys. -/
theorem lookup_setEntries_ne {store : RuleStore} {c : String} (v : List String)
    {c' : String} (h : c' ≠ c) :
    lookupStore (setEntries store c v) c' = lookupStore store c' := by
  induction store with
  | nil => rfl
  | cons e st ih =>
    show lookupStore ((if e.1 = c then (c, v) else e) :: setEntries st c v) c'
        = lookupStore (e :: st) c'
    by_cases he : e.1 = c
    · rw [if_pos he]
      have h1 : ¬ ((c, v).1 == c') = true := by simp; exact fun hh => h hh.symm
      have h2 : ¬ (e.1 == c') = true := by simp [he]; exact fun hh => h hh.symm
      rw [lookupStore, lookupStore,
        List.find?_cons_of_neg (p := fun e : String × List String => e.1 == c') _ h1,
        List.find?_cons_of_neg (p := fun e : String × List String => e.1 == c') _ h2]
      exact ih
    · rw [if_neg he]
      by_cases he' : e.1 = c'
      · rw [lookupStore, lookupStore,
          List.find?_cons_of_pos (p := fun e : String × List String => e.1 == c') _ (by simp [he']),
          List.find?_cons_of_pos (p := fun e : String × List String => e.1 == c') _ (by simp [he'])]
      · rw [lookupStore, lookupStore,
          List.find?_cons_of_neg (p := fun e : String × List String => e.1 == c') _ (by simp [he']),
          List.find?_cons_of_neg (p := fun e : String × List String => e.1 == c') _ (by simp [he'])]
        exact ih

/-- `storeSet` does not touch entries under other keys. -/
theorem lookup_storeSet_ne {store : RuleStore} {c : String} (v : List String)
    {c' : String} (h : c' ≠ c) :
    lookupStore (storeSet store c v) c' = lookupStore store c' := by
  rw [storeSet]
  by_cases ha : store.any (fun e => e.1 == c) = true
  · rw [if_pos ha]; exact lookup_setEntries_ne v h
  · rw [if_neg ha, lookupStore, List.find?_append]
    have hcc : ¬ (c == c') = true := by simp; exact fun hh => h hh.symm
    have hnone : List.find? (fun e => e.1 == c') [(c, v)] = none := by
      rw [List.find?_cons_of_neg (p := fun e : String × List String => e.1 == c') _ hcc]; rfl
    rw [hnone, Option.or_none]
    rfl

/-- Membership after `storeSet`: the new binding, or an untouched entry
under a different key. -/
theorem mem_storeSet {store : RuleStore} {c : String} {v : List String}
    {e : String × List String} (h : e ∈ storeSet store c v) :
    e = (c, v) ∨ (e ∈ store ∧ e.1 ≠ c) := by
  rw [storeSet] at h
  by_cases ha : store.any (fun x => x.1 == c) = true
  · rw [if_pos ha, setEntries] at h
    rcases List.mem_map.1 h with ⟨a, hmem, hval⟩
    by_cases hac : a.1 = c
    · left; rw [if_pos hac] at hval; exact hval.symm
    · right; rw [if_neg hac] at hval; subst hval; exact ⟨hmem, hac⟩
  · rw [if_neg ha] at h
    rcases List.mem_append.1 h with hmem | hnew
    · right
      refine ⟨hmem, fun hc => ha ?_⟩
      exact List.any_eq_true.2 ⟨e, hmem, by simp [hc]⟩
    · left; simpa using hnew

/-- In a store with pairwise distinct keys (a Python dict), lookup of a
member entry's key returns that entry's value. -/
theorem lookup_of_mem_nodup {store : RuleStore}
    (hnd : (store.map Prod.fst).Nodup) {e : String × List String} (h : e ∈ store) :
    lookupStore store e.1 = some e.2 := by
  induction store with
  | nil => simp at h
  | cons a st ih =>
    rcases List.mem_cons.1 h with rfl | hmem
    · simp [lookupStore, List.find?_cons]
    · have hne : a.1 ≠ e.1 := by
        intro hc
        have : e.1 ∈ st.map Prod.fst := List.mem_map.2 ⟨e, hmem, rfl⟩
        rw [List.map_cons, List.nodup_cons] at hnd
        exact hnd.1 (hc ▸ this)
      have hnd' : (st.map Prod.fst).Nodup := by
        rw [List.map_cons, List.nodup_cons] at hnd; exact hnd.2
      simpa [lookupStore, List.find?_cons, hne] using ih hnd' hmem

/-- Overwriting the category twice keeps only the second write. -/
theorem tx_set_set (t : Transaction) (c c' : String) :
    ({ ({ t with category := c } : Transaction) with category := c' } : Transaction)
      = { t with category := c' } := rfl

/-- Rewriting the category with itself is the identity. -/
theorem tx_set_self (t : Transaction) :
    ({ t with category := t.category } : Transaction) = t := rfl

/-- The category loop of `categorize_transactions` acts on each row
independently: folding the per-entry table update equals mapping the
per-transaction `catStep` fold over the rows. -/
theorem categorize_foldl (store : RuleStore) :
    ∀ txs : List Transaction,
      store.foldl
        (fun acc e =>
          if e.1 = "Uncategorised" ∨ e.2 = [] then acc
          else acc.map (fun t =>
            if normLS t.details ∈ e.2.map normLS then { t with category := e.1 } else t))
        txs
      = txs.map (fun t =>
          { t with category := store.foldl (catStep t.details) t.category }) := by
  induction store with
  | nil =>
    intro txs
    simp only [List.foldl_nil, tx_set_self, List.map_id_fun', List.map_id']
  | cons e st ih =>
    intro txs
    simp only [List.foldl_cons]
    by_cases hc : e.1 = "Uncategorised" ∨ e.2 = []
    · rw [if_pos hc, ih]
      apply List.map_congr_left
      intro t _
      rw [catStep, if_pos hc]
    · rw [if_neg hc, ih, List.map_map]
      apply List.map_congr_left
      intro t _
      simp only [Function.comp_apply]
      by_cases hm : normLS t.details ∈ e.2.map normLS
      · rw [if_pos hm]
        show ({ ({ t with category := e.1 } : Transaction) with
            category := st.foldl (catStep t.details) e.1 } : Transaction) = _
        rw [tx_set_set, catStep, if_neg hc, if_pos hm]
      · rw [if_neg hm]
        show ({ t with category := st.foldl (catStep t.details) t.category } : Transaction) = _
        rw [catStep, if_neg hc, if_neg hm]

/-- `categorize` acts pointwise: each transaction is assigned
`finalCat` of its `Details`, whatever its previous category was. -/
theorem categorize_eq (txs : List Transaction) (store : RuleStore) :
    categorize txs store
      = txs.map (fun t => { t with category := finalCat t.details store }) := by
  rw [categorize, categorize_foldl, List.map_map]
  apply List.map_congr_left
  intro t _
  simp only [Function.comp_apply]
  rw [tx_set_set]
  rfl

/-- The `catStep` fold only reacts to matching entries: it equals the
fold that records the name of each matching entry in turn. -/
theorem foldl_catStep_filter (d : String) (store : RuleStore) :
    ∀ acc : String,
      store.foldl (catStep d) acc
        = (store.filter (fun e => decide (entryMatches d e))).foldl (fun _ e => e.1) acc := by
  induction store with
  | nil => intro acc; rfl
  | cons e st ih =>
    intro acc
    rw [List.foldl_cons]
    by_cases hm : entryMatches d e
    · rw [List.filter_cons_of_pos (by simpa using hm), List.foldl_cons]
      have hne : e.2 ≠ [] := by
        intro h0
        rcases hm with ⟨-, h2⟩
        rw [h0] at h2
        simp at h2
      have hstep : catStep d acc e = e.1 := by
        rw [catStep, if_neg (not_or.2 ⟨hm.1, hne⟩), if_pos hm.2]
      rw [hstep, ih]
    · rw [List.filter_cons_of_neg (by simpa using hm)]
      have hstep : catStep d acc e = acc := by
        rw [catStep]
        by_cases hc : e.1 = "Uncategorised" ∨ e.2 = []
        · rw [if_pos hc]
        · rw [if_neg hc]
          have : ¬ normLS d ∈ e.2.map normLS := fun hmem =>
            hm ⟨fun h1 => hc (Or.inl h1), hmem⟩
          rw [if_neg this]
      rw [hstep, ih]

/-- A fold that keeps only entry names returns the name of the last
entry when there is one. -/
theorem foldl_last_name (l : List (String × List String)) :
    ∀ (acc : String) (e : String × List String),
      l.getLast? = some e → l.foldl (fun _ x => x.1) acc = e.1 := by
  induction l with
  | nil => intro acc e h; simp at h
  | cons a t ih =>
    intro acc e h
    cases t with
    | nil =>
      simp only [List.getLast?_singleton, Option.some.injEq] at h
      rw [← h]
      rfl
    | cons b t' =>
      rw [List.getLast?_cons_cons] at h
      rw [List.foldl_cons]
      exact ih a.1 e h

/-- Over a list of entries none of which is named `"Uncategorised"`,
the name-recording fold returns `"Uncategorised"` exactly when it never
ran and started there. -/
theorem foldl_name_eq_default (l : List (String × List String)) :
    ∀ acc : String, (∀ x ∈ l, x.1 ≠ "Uncategorised") →
      (l.foldl (fun _ x => x.1) acc = "Uncategorised"
        ↔ acc = "Uncategorised" ∧ l = []) := by
  induction l with
  | nil => intro acc _; simp
  | cons a t ih =>
    intro acc hx
    rw [List.foldl_cons, ih a.1 (fun x hm => hx x (List.mem_cons_of_mem _ hm))]
    simp [hx a (List.mem_cons_self _ _)]

/-- `finalCat` is `"Uncategorised"` exactly when no store entry matches. -/
theorem finalCat_eq_uncategorised_iff (d : String) (store : RuleStore) :
    finalCat d store = "Uncategorised" ↔ ∀ e ∈ store, ¬ entryMatches d e := by
  rw [finalCat, foldl_catStep_filter]
  have hnames : ∀ x ∈ store.filter (fun e => decide (entryMatches d e)),
      x.1 ≠ "Uncategorised" := by
    intro x hx
    have h2 := (List.mem_filter.1 hx).2
    simp only [decide_eq_true_eq] at h2
    exact h2.1
  rw [foldl_name_eq_default _ _ hnames]
  constructor
  · rintro ⟨-, hnil⟩ e he hm
    have : e ∈ store.filter (fun e => decide (entryMatches d e)) :=
      List.mem_filter.2 ⟨he, by simpa using hm⟩
    rw [hnil] at this
    simp at this
  · intro h
    refine ⟨rfl, List.filter_eq_nil_iff.2 ?_⟩
    intro e he
    simpa using h e he

/-- `finalCat` returns the name of the last matching store entry. -/
theorem finalCat_eq_last (d : String) (store : RuleStore)
    (e : String × List String)
    (h : (store.filter (fun x => decide (entryMatches d x))).getLast? = some e) :
    finalCat d store = e.1 := by
  rw [finalCat, foldl_catStep_filter]
  exact foldl_last_name _ _ e h

/-- A lookup fails exactly when no entry has the key. -/
theorem lookup_eq_none {store : RuleStore} {c : String} :
    lookupStore store c = none ↔ ∀ e ∈ store, e.1 ≠ c := by
  rw [lookupStore, Option.map_eq_none', List.find?_eq_none]
  simp

/-- `add_keyword_to_category` written out for a present category. -/
theorem add_characterisation (s : AppState) (C k : String) (kws : List String)
    (h : lookupStore s.categories C = some kws) :
    add_keyword_to_category s C k
      = (if pyStrip k = "" then some (s, false)
         else if pyStrip k ∈ kws then some (s, false)
         else some ({ categories := storeSet s.categories C (kws ++ [pyStrip k]),
                      persisted := some (storeSet s.categories C (kws ++ [pyStrip k])) },
                    true)) := by
  simp only [add_keyword_to_category, h]

/-- `remove_keyword_from_category` written out for a present category. -/
theorem remove_characterisation (s : AppState) (C k : String) (kws : List String)
    (h : lookupStore s.categories C = some kws) :
    remove_keyword_from_category s C k
      = (if (kws.filter (fun kw => normSL kw != normSL k)).length ≠ kws.length then
           { categories := storeSet s.categories C
               (kws.filter (fun kw => normSL kw != normSL k)),
             persisted := some (storeSet s.categories C
               (kws.filter (fun kw => normSL kw != normSL k))) }
         else s) := by
  simp only [remove_keyword_from_category, h, Option.getD_some, normSL]

/-- Removing a keyword from an absent category leaves the state alone. -/
theorem remove_absent (s : AppState) (C k : String)
    (habs : lookupStore s.categories C = none) :
    remove_keyword_from_category s C k = s := by
  simp [remove_keyword_from_category, habs]

/-- C1 counterexample: with the reachable store
`{"Uncategorised": ["foo"]}` and a transaction whose `Details` is
`"foo"`, `categorize` assigns `"Uncategorised"` even though a category
of the store does hold a keyword whose trimmed, case-folded form equals
the transaction's `Details` — the rule loop skips the entry named
`"Uncategorised"` (main.py:31), so the claimed "iff over all categories"
fails in the right-to-left direction. -/
theorem C1_counterexample :
    (categorize [txFoo] storeUncatFoo).map Transaction.category = ["Uncategorised"]
    ∧ ∃ e ∈ storeUncatFoo, normLS txFoo.details ∈ e.2.map normLS := by
  decide

/-- C1 (amended): for a single transaction, `categorize` assigns
`"Uncategorised"` iff no category **other than the reserved
`"Uncategorised"` entry** has a keyword whose lowered, stripped form
equals the lowered, stripped `Details`. -/
theorem C1_amended_uncategorised_iff (t : Transaction) (R : RuleStore) :
    (categorize [t] R).map Transaction.category = ["Uncategorised"]
      ↔ ∀ e ∈ R, ¬ entryMatches t.details e := by
  have hmap : (categorize [t] R).map Transaction.category = [finalCat t.details R] := by
    rw [categorize_eq]
    rfl
  rw [hmap]
  simp only [List.cons.injEq, and_true]
  exact finalCat_eq_uncategorised_iff t.details R

/-- C5 counterexample: the module-level load (main.py:12-19) does not
behave as claimed — a corrupt `categories.json` makes `json.load` raise
(there is no `try`/`except`), and the default used when the file is
absent is spelled `{"UNcategorized": []}`, not `{"Uncategorised": []}`. -/
theorem C5_counterexample :
    loadCategories (some none) = none
    ∧ loadCategories none = some [("UNcategorized", [])]
    ∧ [("UNcategorized", ([] : List String))] ≠ [("Uncategorised", ([] : List String))] := by
  decide

/-- C5 (amended): when no persisted snapshot is present, load returns
the default store `{"UNcategorized": []}` (as spelled in the source);
when the file exists and parses it returns the parsed store; when the
file exists but is corrupt, the `json.load` failure propagates to the
caller (startup fails) instead of falling back to the default. -/
theorem C5_amended_load :
    loadCategories none = some [("UNcategorized", [])]
    ∧ loadCategories (some none) = none
    ∧ ∀ r : RuleStore, loadCategories (some (some r)) = some r :=
  ⟨rfl, rfl, fun _ => rfl⟩

/-- C7: `categorize` is idempotent — it only rewrites the `Category`
field as a function of the `Details` field, which it never changes. -/
theorem C7_categorize_idempotent (txs : List Transaction) (R : RuleStore) :
    categorize (categorize txs R) R = categorize txs R := by
  rw [categorize_eq txs R, categorize_eq, List.map_map]
  apply List.map_congr_left
  intro t _
  simp only [Function.comp_apply]

/-- C9: a non-numeric entry in the Amount column (after stripping
commas) makes `load_transactions` fail with the Amount format error —
the `astype(float)` call raises before any dataframe is returned, so no
ledger, not even a partial one, is produced (main.py:44-54). -/
theorem C9_amount_failure (rows : List RawRow) (store : RuleStore)
    (h : ∃ r ∈ rows, pyFloat (stripCommas r.amount) = none) :
    load_transactions rows store = Except.error ParseError.AmountFormat := by
  simp only [load_transactions, mapOpt_eq_none_of_mem h]

/-- C9 witness: a file containing the row with Amount `"abc"` fails
with the Amount format error. -/
theorem C9_witness :
    (∃ r ∈ [rowBadAmount], pyFloat (stripCommas r.amount) = none)
    ∧ load_transactions [rowBadAmount] [] = Except.error ParseError.AmountFormat :=
  ⟨by decide, C9_amount_failure [rowBadAmount] [] (by decide)⟩

/-- C10: `add_keyword_to_category` with a category absent from the
store and a non-empty trimmed keyword raises `KeyError` (the unguarded
`st.session_state.categories[category]`, modelled as `none`), while
`remove_keyword_from_category` on an absent category is a total no-op
returning the state unchanged (in memory and on disk). -/
theorem C10_absent_category (s : AppState) (C k : String)
    (habs : lookupStore s.categories C = none) (hk : pyStrip k ≠ "") :
    add_keyword_to_category s C k = none
    ∧ remove_keyword_from_category s C k = s := by
  refine ⟨?_, remove_absent s C k habs⟩
  simp only [add_keyword_to_category, habs, if_neg hk]

/-- C10 witness: the category `"Zzz"` is absent from `stateCa`. -/
theorem C10_witness :
    lookupStore stateCa.categories "Zzz" = none
    ∧ pyStrip "w" ≠ ""
    ∧ (add_keyword_to_category stateCa "Zzz" "w" = none
        ∧ remove_keyword_from_category stateCa "Zzz" "w" = stateCa) :=
  ⟨by decide, by decide, C10_absent_category stateCa "Zzz" "w" (by decide) (by decide)⟩

/-- C3: for a category present in the store, `addKeyword` trims the
keyword; when the trimmed keyword is empty or already present it
returns `False` with the in-memory store and persisted snapshot both
untouched; otherwise it appends the trimmed keyword to the category's
list, persists the whole store, and returns `True`. -/
theorem C3_add_keyword (s : AppState) (C k : String) (kws : List String)
    (h : lookupStore s.categories C = some kws) :
    ((pyStrip k = "" ∨ pyStrip k ∈ kws) →
        add_keyword_to_category s C k = some (s, false))
    ∧ (pyStrip k ≠ "" → pyStrip k ∉ kws →
        add_keyword_to_category s C k =
          some ({ categories := storeSet s.categories C (kws ++ [pyStrip k]),
                  persisted := some (storeSet s.categories C (kws ++ [pyStrip k])) },
                true)
        ∧ lookupStore (storeSet s.categories C (kws ++ [pyStrip k])) C
            = some (kws ++ [pyStrip k])) := by
  have hadd := add_characterisation s C k kws h
  refine ⟨?_, ?_⟩
  · rintro (hk | hk)
    · rw [hadd, if_pos hk]
    · by_cases hk0 : pyStrip k = ""
      · rw [hadd, if_pos hk0]
      · rw [hadd, if_neg hk0, if_pos hk]
  · intro hk0 hk1
    refine ⟨?_, lookup_storeSet_self _ h⟩
    rw [hadd, if_neg hk0, if_neg hk1]

/-- C3 witness: adding `"b"` to category `"C"` of `stateCa`. -/
theorem C3_witness :
    lookupStore stateCa.categories "C" = some ["a"]
    ∧ (((pyStrip "b" = "" ∨ pyStrip "b" ∈ ["a"]) →
          add_keyword_to_category stateCa "C" "b" = some (stateCa, false))
      ∧ (pyStrip "b" ≠ "" → pyStrip "b" ∉ ["a"] →
          add_keyword_to_category stateCa "C" "b" =
            some ({ categories := storeSet stateCa.categories "C" (["a"] ++ [pyStrip "b"]),
                    persisted :=
                      some (storeSet stateCa.categories "C" (["a"] ++ [pyStrip "b"])) },
                  true)
          ∧ lookupStore (storeSet stateCa.categories "C" (["a"] ++ [pyStrip "b"])) "C"
              = some (["a"] ++ [pyStrip "b"]))) :=
  ⟨by decide, C3_add_keyword stateCa "C" "b" ["a"] (by decide)⟩

/-- C4: `removeKeyword` trims and lowers the keyword, removes from the
category's list every keyword whose trimmed, lowered form equals it,
and persists exactly when the list changed: an unchanged list leaves
the whole state (including the persisted snapshot) untouched, a changed
list is written back and the store persisted; the resulting list keeps
precisely the non-matching keywords. -/
theorem C4_remove_keyword (s : AppState) (C k : String) (kws : List String)
    (h : lookupStore s.categories C = some kws) :
    (kws.filter (fun kw => normSL kw != normSL k) = kws →
        remove_keyword_from_category s C k = s)
    ∧ (kws.filter (fun kw => normSL kw != normSL k) ≠ kws →
        remove_keyword_from_category s C k =
          { categories :=
              storeSet s.categories C (kws.filter (fun kw => normSL kw != normSL k)),
            persisted :=
              some (storeSet s.categories C
                (kws.filter (fun kw => normSL kw != normSL k))) })
    ∧ lookupStore (remove_keyword_from_category s C k).categories C
        = some (kws.filter (fun kw => normSL kw != normSL k))
    ∧ ∀ kw ∈ kws.filter (fun kw => normSL kw != normSL k), normSL kw ≠ normSL k := by
  have hrem := remove_characterisation s C k kws h
  refine ⟨?_, ?_, ?_, ?_⟩
  · intro hEq
    rw [hrem, hEq]
    simp
  · intro hNe
    rw [hrem, if_pos (fun hlen => hNe (filter_eq_self_of_length hlen))]
  · by_cases hch : kws.filter (fun kw => normSL kw != normSL k) = kws
    · rw [hrem, hch]
      simp [h]
    · rw [hrem, if_pos (fun hlen => hch (filter_eq_self_of_length hlen))]
      exact lookup_storeSet_self _ h
  · intro kw hkw
    have := (List.mem_filter.1 hkw).2
    simpa using this

/-- C4 witness: removing `"k"` from `stateKb` deletes the
case-insensitive match `"K "` and keeps `"b"`. -/
theorem C4_witness :
    lookupStore stateKb.categories "C" = some ["K ", "b"]
    ∧ ((["K ", "b"].filter (fun kw => normSL kw != normSL "k") = ["K ", "b"] →
          remove_keyword_from_category stateKb "C" "k" = stateKb)
      ∧ (["K ", "b"].filter (fun kw => normSL kw != normSL "k") ≠ ["K ", "b"] →
          remove_keyword_from_category stateKb "C" "k" =
            { categories := storeSet stateKb.categories "C"
                (["K ", "b"].filter (fun kw => normSL kw != normSL "k")),
              persisted := some (storeSet stateKb.categories "C"
                (["K ", "b"].filter (fun kw => normSL kw != normSL "k"))) })
      ∧ lookupStore (remove_keyword_from_category stateKb "C" "k").categories "C"
          = some (["K ", "b"].filter (fun kw => normSL kw != normSL "k"))
      ∧ ∀ kw ∈ ["K ", "b"].filter (fun kw => normSL kw != normSL "k"),
          normSL kw ≠ normSL "k") :=
  ⟨by decide, C4_remove_keyword stateKb "C" "k" ["K ", "b"] (by decide)⟩

/-- C6: when a transaction's `Details` matches keywords registered
under two different categories (a transiently inconsistent store), the
matching entry processed last in the store's iteration order wins — and
the (total) categorisation still produces a value rather than crashing. -/
theorem C6_last_write_wins (t : Transaction) (R : RuleStore)
    (e1 e2 e : String × List String)
    (h1 : e1 ∈ R.filter (fun x => decide (entryMatches t.details x)))
    (h2 : e2 ∈ R.filter (fun x => decide (entryMatches t.details x)))
    (hne : e1.1 ≠ e2.1)
    (hlast : (R.filter (fun x => decide (entryMatches t.details x))).getLast? = some e) :
    categorize [t] R = [{ t with category := e.1 }] := by
  rw [categorize_eq]
  simp only [List.map_cons, List.map_nil]
  rw [finalCat_eq_last t.details R e hlast]

/-- C6 witness: with `"foo"` registered under both `"A"` and `"B"`,
the transaction is assigned `"B"`, the category processed last. -/
theorem C6_witness :
    categorize [txFoo] storeAB = [{ txFoo with category := "B" }] :=
  C6_last_write_wins txFoo storeAB ("A", ["foo"]) ("B", ["foo"]) ("B", ["foo"])
    (by decide) (by decide) (by decide) (by decide)

/-- C2 counterexample: starting from a store where `"k"` occurs only in
`"C1"` and the target category `"C2"` does not exist, the
`removeKeyword`/`addKeyword` sequence of the edit loop raises `KeyError`
in `addKeyword` (modelled as `none`), and afterwards `"k"` appears in
**no** category at all — not in exactly one, as claimed. -/
theorem C2_counterexample :
    add_keyword_to_category (remove_keyword_from_category stateC1k "C1" "k") "C2" "k" = none
    ∧ ∀ e ∈ (remove_keyword_from_category stateC1k "C1" "k").categories,
        normSL "k" ∉ e.2.map normSL := by
  decide

/-- C2 (amended): provided the target category is present in the store
(dict keys pairwise distinct, as for a Python dict) and the keyword's
trimmed form is non-empty, if the keyword occurs (up to trim+casefold)
only in `c1`'s set, then after `removeKeyword(c1, k)` followed by
`addKeyword(c2, k)` with `c2 ≠ c1`, the add succeeds and the keyword
occurs in exactly one category's set, namely `c2`'s — in particular in
no category named `c1`. -/
theorem C2_amended_keyword_exclusivity (s : AppState) (c1 c2 k : String)
    (kws2 : List String)
    (hnd : (s.categories.map Prod.fst).Nodup)
    (hc2 : lookupStore s.categories c2 = some kws2)
    (hne : c2 ≠ c1)
    (hk : pyStrip k ≠ "")
    (honly : ∀ e ∈ s.categories, normSL k ∈ e.2.map normSL → e.1 = c1) :
    ∃ s2 : AppState,
      add_keyword_to_category (remove_keyword_from_category s c1 k) c2 k
        = some (s2, true)
      ∧ (∀ e ∈ s2.categories, (normSL k ∈ e.2.map normSL ↔ e.1 = c2))
      ∧ (∀ e ∈ s2.categories, e.1 = c1 → normSL k ∉ e.2.map normSL) := by
  set s1 := remove_keyword_from_category s c1 k with hs1
  have hstep : lookupStore s1.categories c2 = some kws2
      ∧ ∀ e ∈ s1.categories, normSL k ∉ e.2.map normSL := by
    cases hlook1 : lookupStore s.categories c1 with
    | none =>
      have hid : s1 = s := hs1.trans (remove_absent s c1 k hlook1)
      rw [hid]
      refine ⟨hc2, ?_⟩
      intro e he hmem
      exact (lookup_eq_none.1 hlook1) e he (honly e he hmem)
    | some kws1 =>
      have hrem := remove_characterisation s c1 k kws1 hlook1
      by_cases hch : (kws1.filter (fun kw => normSL kw != normSL k)).length ≠ kws1.length
      · have hs1' : s1 =
            ⟨storeSet s.categories c1 (kws1.filter (fun kw => normSL kw != normSL k)),
              some (storeSet s.categories c1
                (kws1.filter (fun kw => normSL kw != normSL k)))⟩ := by
          rw [hs1, hrem, if_pos hch]
        rw [hs1']
        constructor
        · exact (lookup_storeSet_ne _ hne).trans hc2
        · intro e he hmem
          rcases mem_storeSet he with rfl | ⟨hmemS, hne1⟩
          · rcases List.mem_map.1 hmem with ⟨kw, hkw, hkweq⟩
            have hpred := (List.mem_filter.1 hkw).2
            rw [hkweq] at hpred
            simp at hpred
          · exact hne1 (honly e hmemS hmem)
      · have hs1' : s1 = s := by rw [hs1, hrem, if_neg hch]
        rw [hs1']
        refine ⟨hc2, ?_⟩
        intro e he hmem
        have hec1 : e.1 = c1 := honly e he hmem
        have hlooke : lookupStore s.categories e.1 = some e.2 :=
          lookup_of_mem_nodup hnd he
        rw [hec1, hlook1] at hlooke
        have hkws : kws1 = e.2 := by
          simpa using hlooke
        have hfil : kws1.filter (fun kw => normSL kw != normSL k) = kws1 :=
          filter_eq_self_of_length (not_ne_iff.1 hch)
        have hall := List.filter_eq_self.1 hfil
        rcases List.mem_map.1 hmem with ⟨kw, hkw, hkweq⟩
        rw [← hkws] at hkw
        have := hall kw hkw
        rw [hkweq] at this
        simp at this
  obtain ⟨hlk2, hnomatch⟩ := hstep
  have hnotmem : pyStrip k ∉ kws2 := by
    intro hmem
    exact hnomatch _ (mem_of_lookup hlk2)
      (List.mem_map.2 ⟨pyStrip k, hmem, normSL_pyStrip k⟩)
  have hadd := add_characterisation s1 c2 k kws2 hlk2
  refine ⟨{ categories := storeSet s1.categories c2 (kws2 ++ [pyStrip k]),
            persisted := some (storeSet s1.categories c2 (kws2 ++ [pyStrip k])) },
          ?_, ?_, ?_⟩
  · rw [hadd, if_neg hk, if_neg hnotmem]
  · intro e he
    rcases mem_storeSet he with rfl | ⟨hmemS, hne2⟩
    · constructor
      · intro _
        rfl
      · intro _
        exact List.mem_map.2 ⟨pyStrip k, by simp, normSL_pyStrip k⟩
    · constructor
      · intro hmem
        exact absurd hmem (hnomatch e hmemS)
      · intro hc
        exact absurd hc hne2
  · intro e he hc1e
    rcases mem_storeSet he with rfl | ⟨hmemS, hne2⟩
    · exact absurd hc1e hne
    · exact hnomatch e hmemS

/-- C2 witness: migrating `"k"` from `"C1"` to the existing category
`"C2"` in `stateC1kC2` succeeds and leaves `"k"` exactly in `"C2"`. -/
theorem C2_witness :
    ((stateC1kC2.categories.map Prod.fst).Nodup
      ∧ lookupStore stateC1kC2.categories "C2" = some []
      ∧ pyStrip "k" ≠ ""
      ∧ ∀ e ∈ stateC1kC2.categories, normSL "k" ∈ e.2.map normSL → e.1 = "C1")
    ∧ (∃ s2 : AppState,
        add_keyword_to_category (remove_keyword_from_category stateC1kC2 "C1" "k") "C2" "k"
          = some (s2, true)
        ∧ (∀ e ∈ s2.categories, (normSL "k" ∈ e.2.map normSL ↔ e.1 = "C2"))
        ∧ (∀ e ∈ s2.categories, e.1 = "C1" → normSL "k" ∉ e.2.map normSL)) :=
  ⟨⟨by decide, by decide, by decide, by decide⟩,
    C2_amended_keyword_exclusivity stateC1kC2 "C1" "C2" "k" [] (by decide) (by decide)
      (by decide) (by decide) (by decide)⟩

/-- C8 counterexample: adding `"FOO"` to a category stores it verbatim
after trimming — the stored keyword is **not** case-folded, refuting
"every keyword stored in a category's set is in normalized (trimmed and
case-folded) form after every addKeyword". -/
theorem C8_counterexample :
    add_keyword_to_category stateCempty "C" "FOO"
      = some ({ categories := [("C", ["FOO"])], persisted := some [("C", ["FOO"])] }, true)
    ∧ pyLower (pyStrip "FOO") ≠ "FOO" := by
  decide

/-- C8 (amended): every keyword stored in a category's set is trimmed
and unique as an exact string within its owning category's set, and
this invariant is preserved by every (non-raising) `addKeyword`;
case-folding is not applied at storage time — case-insensitive
comparison happens at matching/removal time instead. -/
theorem C8_amended_wellformed (s : AppState) (C k : String) (s' : AppState) (b : Bool)
    (hinv : wellFormedKeywords s.categories)
    (hres : add_keyword_to_category s C k = some (s', b)) :
    wellFormedKeywords s'.categories := by
  by_cases hk0 : pyStrip k = ""
  · simp only [add_keyword_to_category, if_pos hk0, Option.some.injEq, Prod.mk.injEq] at hres
    rw [← hres.1]
    exact hinv
  · cases hlook : lookupStore s.categories C with
    | none =>
      simp only [add_keyword_to_category, if_neg hk0, hlook] at hres
      exact Option.noConfusion hres
    | some kws =>
      have hadd := add_characterisation s C k kws hlook
      rw [hadd, if_neg hk0] at hres
      by_cases hmem : pyStrip k ∈ kws
      · rw [if_pos hmem] at hres
        simp only [Option.some.injEq, Prod.mk.injEq] at hres
        rw [← hres.1]
        exact hinv
      · rw [if_neg hmem] at hres
        simp only [Option.some.injEq, Prod.mk.injEq] at hres
        rw [← hres.1]
        intro e he
        rcases mem_storeSet he with rfl | ⟨hmemS, -⟩
        · have hC := hinv _ (mem_of_lookup hlook)
          constructor
          · intro kw hkw
            rcases List.mem_append.1 hkw with hkw | hkw
            · exact hC.1 kw hkw
            · have hkwk : kw = pyStrip k := by simpa using hkw
              rw [hkwk]
              exact pyStrip_idem k
          · rw [List.nodup_append]
            refine ⟨hC.2, List.nodup_singleton _, ?_⟩
            intro a ha hb
            have hak : a = pyStrip k := by simpa using hb
            rw [hak] at ha
            exact hmem ha
        · exact hinv _ hmemS

/-- C8 witness: `stateCa` is well formed and stays well formed after
adding `"b"` to `"C"`. -/
theorem C8_witness :
    wellFormedKeywords stateCa.categories
    ∧ add_keyword_to_category stateCa "C" "b"
        = some ({ categories := [("C", ["a", "b"])],
                  persisted := some [("C", ["a", "b"])] }, true)
    ∧ wellFormedKeywords
        ({ categories := [("C", ["a", "b"])],
           persisted := some [("C", ["a", "b"])] } : AppState).categories :=
  ⟨by decide, by decide,
    C8_amended_wellformed stateCa "C" "b"
      { categories := [("C", ["a", "b"])], persisted := some [("C", ["a", "b"])] } true
      (by decide) (by decide)⟩

end FinanceManager
